import Mathlib

set_option autoImplicit false

/- Shallow embedding of the PromptFuzz sanitization and corpus-evolution
pipeline.  The definitions below are translated from the repository's
source files `src/execution/sanitize.rs`, `src/config.rs` and
`src/request/openai.rs`; definitions marked "Modelled from the spec" stand
for code of the repository that is not among those files. -/

/-- The typed verdicts of the pipeline, from the source's `ProgramError`
(`Syn` renders the source's `Syntax` variant). -/
inductive ProgramError where
  | Syn (msg : String)
  | Link (msg : String)
  | Execute (msg : String)
  | Fuzzer (msg : String)
  | Hang (msg : String)
  | Coverage (msg : String)
  deriving DecidableEq

/-- The five pipeline stages of `Executor::check_program_is_correct`
(`syn` renders the syntax stage). -/
inductive Stage where
  | syn
  | link
  | exec
  | fuzz
  | cov
  deriving DecidableEq

/-- The outcome each of the five stage checkers would report for one
candidate: `none` for success, `some e` for a typed `ProgramError`.  The
stage checkers run external tools, so their outcomes enter the embedding
as an environment. -/
structure StageEnv where
  synRes : Option ProgramError
  linkRes : Option ProgramError
  execRes : Option ProgramError
  fuzzRes : Option ProgramError
  covRes : Option ProgramError

/-- Outcome of a single stage under an environment. -/
def stageOutcome (e : StageEnv) : Stage → Option ProgramError
  | .syn => e.synRes
  | .link => e.linkRes
  | .exec => e.execRes
  | .fuzz => e.fuzzRes
  | .cov => e.covRes

/-- The stage order hard-coded in `check_program_is_correct`. -/
def pipelineStages : List Stage := [.syn, .link, .exec, .fuzz, .cov]

/-- Run stages in order: each `if let Some(err) = ... { return Ok(Some(err)) }`
of the source returns on the first failing stage.  The second component
records which stages actually ran. -/
def runStages (e : StageEnv) : List Stage → Option ProgramError × List Stage
  | [] => (none, [])
  | s :: rest =>
    match stageOutcome e s with
    | some err => (some err, [s])
    | none =>
      let r := runStages e rest
      (r.1, s :: r.2)

/-- `Executor::check_program_is_correct`: the five checks in source order,
returning the verdict together with the list of stages that ran. -/
def check_program_is_correct (e : StageEnv) : Option ProgramError × List Stage :=
  runStages e pipelineStages

/-- `Executor::concurrent_check_batch`: spawns one worker per program for the
first `core` programs of the batch (the loop `for i in 0..core` breaks once
`i >= programs.len()`), then collects the verdicts in spawn order.  The
worker's verdict for a program `p` is abstracted as `f p`. -/
def concurrent_check_batch {α : Type} (f : α → Option ProgramError)
    (programs : List α) (core : Nat) : List (Option ProgramError) :=
  (programs.take core).map f

/-- Loop body of `Executor::concurrent_check`: 1-based index `i`, push the
program on the pending batch, and flush the batch through
`concurrent_check_batch` whenever `i % core == 0` or the list is exhausted. -/
def concurrentCheckGo {α : Type} (f : α → Option ProgramError) (core total : Nat) :
    List α → Nat → List α → List (Option ProgramError) → List (Option ProgramError)
  | [], _, _, acc => acc
  | p :: rest, i, batch, acc =>
    let i1 := i + 1
    let batch1 := batch ++ [p]
    if i1 % core = 0 ∨ i1 = total then
      concurrentCheckGo f core total rest i1 []
        (acc ++ concurrent_check_batch f batch1 core)
    else
      concurrentCheckGo f core total rest i1 batch1 acc

/-- `Executor::concurrent_check`: batch the programs by `core` and
concatenate the per-batch verdicts. -/
def concurrent_check {α : Type} (f : α → Option ProgramError)
    (programs : List α) (core : Nat) : List (Option ProgramError) :=
  concurrentCheckGo f core programs.length programs 0 [] []

/-- Concrete single-program verdict used by closed witnesses. -/
def exampleVerdict : Nat → Option ProgramError :=
  fun n => if n % 2 = 0 then some (ProgramError.Hang "timeout") else none

/-- Directory-existence view of the filesystem: `fs d = true` iff the
WorkDir named `d` exists.  `std::fs::remove_dir_all` removes the
directory. -/
def removeDirAll (fs : String → Bool) (d : String) : String → Bool :=
  fun x => if x = d then false else fs x

/-- One iteration of the cleanup loop of `check_programs_are_correct` on
the existence view: `cleanup_sanitize_dir` deletes entries inside the
WorkDir but never the WorkDir itself, so it leaves existence unchanged;
then the WorkDir is removed recursively unless the verdict is `None`,
`Hang` or `Fuzzer` (the source `continue`s on `Hang` and `Fuzzer`). -/
def cleanupStep (v : Option ProgramError) (d : String) (fs : String → Bool) :
    String → Bool :=
  match v with
  | none => fs
  | some (ProgramError.Hang _) => fs
  | some (ProgramError.Fuzzer _) => fs
  | some _ => removeDirAll fs d

/-- The cleanup loop at the end of `Executor::check_programs_are_correct`,
iterating `cleanupStep` over the verdict/WorkDir pairs in order. -/
def cleanupLoop :
    List (Option ProgramError × String) → (String → Bool) → (String → Bool)
  | [], fs => fs
  | (v, d) :: rest, fs => cleanupLoop rest (cleanupStep v d fs)

/-- Which verdicts keep the WorkDir, per the source's cleanup branch. -/
def keepVerdict : Option ProgramError → Bool
  | none => true
  | some (ProgramError.Hang _) => true
  | some (ProgramError.Fuzzer _) => true
  | some _ => false

/-- `Executor::check_programs_are_correct`: serialize each program to its
WorkDir (not modelled), collect the verdicts through `concurrent_check`,
then run the cleanup loop over the verdict/WorkDir pairs.  Each program is
paired with the name of its WorkDir. -/
def check_programs_are_correct {α : Type} (f : α → Option ProgramError)
    (progs : List (α × String)) (core : Nat) (fs0 : String → Bool) :
    List (Option ProgramError) × (String → Bool) :=
  let res := concurrent_check f (progs.map Prod.fst) core
  (res, cleanupLoop (res.zip (progs.map Prod.snd)) fs0)

/-- Concrete verdict map used by the C3 witness: program 0 gets a syntax
error (WorkDir removed), the others pass. -/
def exampleVerdictSynErr : Nat → Option ProgramError :=
  fun n => if n = 0 then some (ProgramError.Syn "missing header") else none

/-- Modelled from the spec: `GlobalFeature.insert_feature` (the
`GlobalFeature` type lives in the repository's `feedback::clang_coverage`
module, which is not among the given source files).  Per the spec a
GlobalFeature is an unordered set of opaque integer features supporting
insert-if-new; the insert reports whether the feature was newly added. -/
def insertFeature (g : List Nat) (fe : Nat) : Bool × List Nat :=
  if fe ∈ g then (false, g) else (true, g ++ [fe])

/-- Inner loop of `Executor::evolve_corpus` for one corpus file: insert
every feature of the file, recording whether any insert reported "newly
added" (`has_new`). -/
def markOne (g : List Nat) : List Nat → Bool × List Nat
  | [] => (false, g)
  | fe :: rest =>
    let r1 := insertFeature g fe
    let r2 := markOne r1.2 rest
    (r1.1 || r2.1, r2.2)

/-- The marking loop of `evolve_corpus` over the parsed
`(corpus_file, feature_set)` pairs of the merge control file: returns the
interesting files in input order together with the updated global feature
set. -/
def evolveLoop (pairs : List (String × List Nat)) (g : List Nat) :
    List String × List Nat :=
  match pairs with
  | [] => ([], g)
  | (file, fs) :: rest =>
    let m := markOne g fs
    let r := evolveLoop rest m.2
    (if m.1 then file :: r.1 else r.1, r.2)

/-- The externally visible actions of `evolve_corpus`, one constructor per
side-effecting statement of the source, in source order. -/
inductive EvoEvent where
  | CompileMin
  | LoadGF
  | InitGF
  | MinimizeMerge
  | ParseControl
  | CopyShared
  | WriteGF
  | RemoveControl
  | LogUpdate
  deriving DecidableEq

/-- The event trace of a successful `evolve_corpus` run; the branch on
`gfOnDisk` mirrors `if global_feature_file.exists()`. -/
def evoTrace (gfOnDisk : Option (List Nat)) : List EvoEvent :=
  [EvoEvent.CompileMin] ++
    (match gfOnDisk with
      | some _ => [EvoEvent.LoadGF]
      | none => [EvoEvent.InitGF]) ++
    [EvoEvent.MinimizeMerge, EvoEvent.ParseControl, EvoEvent.CopyShared,
      EvoEvent.WriteGF, EvoEvent.RemoveControl, EvoEvent.LogUpdate]

/-- `Executor::evolve_corpus`: load (or initialize) the global feature set,
mark the interesting corpus files, copy exactly those into the shared
corpus (`copy_file_to_shared_corpus`, modelled from the spec as appending
the file list), persist the updated feature set, and delete the control
file.  `gfOnDisk` is the content of the global feature file (`none` when
the file does not exist), `initGF` the set `GlobalFeature::init_by_corpus`
would produce, `pairs` the parsed `CorporaFeatures`, and `shared0` the
shared-corpus contents.  Returns the new shared corpus, the persisted
feature set, and the event trace. -/
def evolve_corpus (gfOnDisk : Option (List Nat)) (initGF : List Nat)
    (pairs : List (String × List Nat)) (shared0 : List String) :
    List String × List Nat × List EvoEvent :=
  let g0 := gfOnDisk.getD initGF
  let r := evolveLoop pairs g0
  (shared0 ++ r.1, r.2, evoTrace gfOnDisk)

/-- Definition following the spec's words, to be compared with
`evolveLoop`: a corpus file is interesting iff at least one of its
features is not already in the global set accumulated so far (the set
loaded at the start plus every feature of the earlier files). -/
def interestingSpec (g : List Nat) : List (String × List Nat) → List String
  | [] => []
  | (file, fs) :: rest =>
    (if ∃ fe ∈ fs, fe ∉ g then [file] else []) ++
      interestingSpec (g ++ fs) rest

/-- Index of the first occurrence of an event in a trace. -/
def evtIdx (e : EvoEvent) : List EvoEvent → Nat
  | [] => 0
  | x :: rest => if x = e then 0 else evtIdx e rest + 1

/-- `evolve_corpus` applied round after round: the global feature set
produced by one round is the one loaded by the next. -/
def runRounds (rounds : List (List (String × List Nat))) (g : List Nat) :
    List Nat :=
  rounds.foldl (fun g pairs => (evolveLoop pairs g).2) g

/-- The externally visible actions of
`Executor::is_program_coverage_correct`, one constructor per
side-effecting statement of the source, in source order. -/
inductive CovEvent where
  | CompileCov
  | CollectCov
  | SanitizeCheck
  | LogCov
  | EvolveCall
  | RemoveCorpusDir
  | DumpCov
  deriving DecidableEq

/-- `Executor::is_program_coverage_correct`: compile under the Coverage
profile, collect coverage, evaluate `sanitize_by_fuzzer_coverage` (its
result enters the embedding as `hasErr`), log the timing, call
`evolve_corpus`, remove the WorkDir's `corpus/` directory, and only then
branch on `hasErr`: verdict `none` on success, a `Coverage` error built
from the `dump_fuzzer_coverage` output `covMsg` otherwise.  Returns the
verdict and the event trace. -/
def is_program_coverage_correct (hasErr : Bool) (covMsg : String) :
    Option ProgramError × List CovEvent :=
  let evs := [CovEvent.CompileCov, CovEvent.CollectCov, CovEvent.SanitizeCheck,
    CovEvent.LogCov, CovEvent.EvolveCall, CovEvent.RemoveCorpusDir]
  if hasErr then
    (some (ProgramError.Coverage
      ("The program cannot cover the callees along the path that contains maximum callees.\n"
        ++ covMsg)), evs ++ [CovEvent.DumpCov])
  else
    (none, evs)

/-- `config::SANITIZER_FLAGS` verbatim. -/
def SANITIZER_FLAGS : List String := [
  "-fsanitize=fuzzer",
  "-g",
  "-O1",
  "-fsanitize=address,undefined",
  "-ftrivial-auto-var-init=zero",
  "-enable-trivial-auto-var-init-zero-knowing-it-will-be-removed-from-clang",
  "-fsanitize-trap=undefined",
  "-fno-sanitize-recover=undefined"]

/-- `config::FUZZER_FLAGS` verbatim. -/
def FUZZER_FLAGS : List String := [
  "-fsanitize=fuzzer",
  "-O1",
  "-g",
  "-fsanitize=address,undefined",
  "-ftrivial-auto-var-init=zero",
  "-enable-trivial-auto-var-init-zero-knowing-it-will-be-removed-from-clang"]

/-- The prompt kinds of the request layer; `Infill` carries the prompt's
leading and trailing context as UTF-8 byte strings. -/
inductive PromptKind where
  | Generative
  | Infill (pre : List Nat) (suf : List Nat)

/-- Rust `str::is_char_boundary`: index 0 and the total length are
boundaries, an inner index is a boundary iff the byte there is not a
UTF-8 continuation byte (`0x80..0xBF`), and an index past the end never
is. -/
def isCharBoundary (s : List Nat) (i : Nat) : Bool :=
  if i = 0 then true
  else if h : i < s.length then
    decide (s.get ⟨i, h⟩ < 128 ∨ 192 ≤ s.get ⟨i, h⟩)
  else decide (i = s.length)

/-- Rust byte-slicing `&s[..n]`: total (`some`) exactly when `n` is
within bounds and on a character boundary; `none` models the panic. -/
def byteSlicePre (s : List Nat) (n : Nat) : Option (List Nat) :=
  if n ≤ s.length ∧ isCharBoundary s n then some (s.take n) else none

/-- `OpenAIHanler::infill`: on an `Infill` prompt the stop sequence is
`suffix[..10]` of the prompt's trailing context; the outer `none` models
the panic of the byte slice, `some stop` the chat request issued with
that optional stop sequence. -/
def infill (prompt : PromptKind) : Option (Option (List Nat)) :=
  match prompt with
  | PromptKind.Infill _ suf =>
    match byteSlicePre suf 10 with
    | some stop => some (some stop)
    | none => none
  | _ => some none

/-- The backtick character (written by code to avoid a backtick literal). -/
def bt : Char := Char.ofNat 96

/-- A run of three backticks, the code-fence marker. -/
def fence : List Char := [bt, bt, bt]

/-- Prefix test on character lists (Rust `str::starts_with`). -/
def isPre : List Char → List Char → Bool
  | [], _ => true
  | _ :: _, [] => false
  | a :: as, b :: bs => if a = b then isPre as bs else false

/-- Rust `str::find` for a pattern: index of its first occurrence. -/
def listFind (pat : List Char) : List Char → Option Nat
  | [] => if pat.isEmpty then some 0 else none
  | c :: rest =>
    if isPre pat (c :: rest) then some 0
    else (listFind pat rest).map (· + 1)

/-- Rust `str::rfind` for a pattern: index of its last occurrence. -/
def listRFind (pat : List Char) : List Char → Option Nat
  | [] => if pat.isEmpty then some 0 else none
  | c :: rest =>
    match listRFind pat rest with
    | some i => some (i + 1)
    | none => if isPre pat (c :: rest) then some 0 else none

/-- Rust `str::trim`, restricted to ASCII whitespace (Rust also trims
exotic Unicode whitespace; the fence-handling behaviour under scrutiny is
unaffected). -/
def trimList (s : List Char) : List Char :=
  ((s.dropWhile Char.isWhitespace).reverse.dropWhile Char.isWhitespace).reverse

/-- `strip_code_prefix` of the source: strip a leading "```" ++ `pat`
when present (`starts_with` followed by `strip_prefix`), else return the
input unchanged. -/
def stripCodePre (input : List Char) (pat : List Char) : List Char :=
  let p := fence ++ pat
  if isPre p input then input.drop p.length else input

/-- The chain of `strip_code_prefix` calls inside `strip_code_wrapper`,
in source order: cpp, CPP, C++, c++, c, C, then a newline. -/
def stripTags (input : List Char) : List Char :=
  let i1 := stripCodePre input ("cpp").toList
  let i2 := stripCodePre i1 ("CPP").toList
  let i3 := stripCodePre i2 ("C++").toList
  let i4 := stripCodePre i3 ("c++").toList
  let i5 := stripCodePre i4 ("c").toList
  let i6 := stripCodePre i5 ("C").toList
  stripCodePre i6 ['\n']

/-- The `if let Some(idx) = input.find("```")` split of
`strip_code_wrapper`: the text before the first "```" becomes `event`
(first component), the tail from the run on stays as the input (second
component); when there is no "```", `event` is empty and the input is
unchanged. -/
def splitAtFirstFence (t : List Char) : List Char × List Char :=
  match listFind fence t with
  | some idx => (t.take idx, t.drop idx)
  | none => (([] : List Char), t)

/-- The final `rfind` branch of `strip_code_wrapper`: cut at the last
"```" when one is found, and prepend `event` wrapped as a block comment
followed by a newline. -/
def wrapWithEvent (event rest2 : List Char) : List Char :=
  match listRFind fence rest2 with
  | some idx => ("/*").toList ++ event ++ ("*/\n").toList ++ rest2.take idx
  | none => ("/*").toList ++ event ++ ("*/\n").toList ++ rest2

/-- `strip_code_wrapper` of the source: trim, split at the first "```",
run the tag-stripping chain on the remainder, and produce the
block-comment-prefixed cut at the last "```". -/
def strip_code_wrapper (input : List Char) : List Char :=
  wrapWithEvent (splitAtFirstFence (trimList input)).1
    (stripTags (splitAtFirstFence (trimList input)).2)

-- ### Theorems

theorem concurrentCheckGo_cons {α : Type} (f : α → Option ProgramError)
    (core total : Nat) (p : α) (rest : List α) (i : Nat) (batch : List α)
    (acc : List (Option ProgramError)) :
    concurrentCheckGo f core total (p :: rest) i batch acc =
      if (i + 1) % core = 0 ∨ i + 1 = total then
        concurrentCheckGo f core total rest (i + 1) []
          (acc ++ concurrent_check_batch f (batch ++ [p]) core)
      else
        concurrentCheckGo f core total rest (i + 1) (batch ++ [p]) acc := rfl

theorem concurrentCheckGo_spec {α : Type} (f : α → Option ProgramError)
    (core : Nat) (hcore : 1 ≤ core) :
    ∀ (rest : List α) (i : Nat) (batch : List α) (acc : List (Option ProgramError))
      (total : Nat),
      rest ≠ [] → batch.length = i % core → total = i + rest.length →
      concurrentCheckGo f core total rest i batch acc =
        acc ++ (batch ++ rest).map f := by
  intro rest
  induction rest with
  | nil => intro i batch acc total hne _ _; exact absurd rfl hne
  | cons p rest ih =>
    intro i batch acc total _ hlen htot
    have hmodlt : i % core < core := Nat.mod_lt i hcore
    have hb1 : batch.length + 1 ≤ core := by omega
    have htake : (batch ++ [p]).take core = batch ++ [p] := by
      apply List.take_of_length_le
      simpa using hb1
    cases rest with
    | nil =>
      have hcond : (i + 1) % core = 0 ∨ i + 1 = total := by
        right; simp at htot; omega
      rw [concurrentCheckGo_cons, if_pos hcond]
      simp [concurrentCheckGo, concurrent_check_batch, htake]
    | cons q rest' =>
      by_cases hflush : (i + 1) % core = 0
      · rw [concurrentCheckGo_cons, if_pos (Or.inl hflush)]
        rw [ih (i + 1) [] (acc ++ concurrent_check_batch f (batch ++ [p]) core)
          total (by simp) (by simp [hflush.symm]) (by simp at htot ⊢; omega)]
        simp [concurrent_check_batch, htake]
      · have hnotend : ¬ i + 1 = total := by simp at htot; omega
        have hlen1 : (batch ++ [p]).length = (i + 1) % core := by
          have hlt : i % core + 1 < core := by
            rcases Nat.lt_or_ge (i % core + 1) core with h | h
            · exact h
            · have heq : i % core + 1 = core := by omega
              have : (i + 1) % core = 0 := by
                rw [← Nat.mod_add_mod, heq, Nat.mod_self]
              exact absurd this hflush
          rw [← Nat.mod_add_mod, Nat.mod_eq_of_lt hlt]
          simp [hlen]
        rw [concurrentCheckGo_cons, if_neg (by push_neg; exact ⟨hflush, hnotend⟩)]
        rw [ih (i + 1) (batch ++ [p]) acc total (by simp) hlen1
          (by simp at htot ⊢; omega)]
        simp

theorem concurrent_check_eq_map {α : Type} (f : α → Option ProgramError)
    (programs : List α) (core : Nat) (hcore : 1 ≤ core) :
    concurrent_check f programs core = programs.map f := by
  cases programs with
  | nil => rfl
  | cons p rest =>
    have := concurrentCheckGo_spec f core hcore (p :: rest) 0 [] []
      (p :: rest).length (by simp) (by simp) (by simp)
    simpa [concurrent_check] using this

/-- C2: for every input list and every `core >= 1`, the batch check returns
exactly one verdict per program, in input order: the result equals the
pointwise verdict map, so it has the input's length and the verdict at
index `i` is the verdict of the program at index `i`. -/
theorem c2_concurrent_check_preserves_order {α : Type}
    (f : α → Option ProgramError) (programs : List α) (core : Nat)
    (hcore : 1 ≤ core) :
    concurrent_check f programs core = programs.map f ∧
    (concurrent_check f programs core).length = programs.length := by
  refine ⟨concurrent_check_eq_map f programs core hcore, ?_⟩
  rw [concurrent_check_eq_map f programs core hcore]
  simp

/-- Witness for C2: three programs checked with `core = 2` (two batches). -/
theorem c2_concurrent_check_preserves_order_witness :
    1 ≤ 2 ∧
    (concurrent_check exampleVerdict [0, 1, 2] 2 =
        [0, 1, 2].map exampleVerdict ∧
      (concurrent_check exampleVerdict [0, 1, 2] 2).length = [0, 1, 2].length) :=
  ⟨by decide, c2_concurrent_check_preserves_order exampleVerdict [0, 1, 2] 2 (by decide)⟩

/-- C1: the five stages run in the strict order Syntax, Link, Execute, Fuzz,
Coverage; the first stage to fail aborts the pipeline (no later stage runs)
and its typed `ProgramError` is the returned verdict; the verdict is `none`
only if all five stages succeed. -/
theorem c1_pipeline_first_failure_wins (e : StageEnv) :
    ((check_program_is_correct e).1 = none ↔
      e.synRes = none ∧ e.linkRes = none ∧ e.execRes = none ∧
      e.fuzzRes = none ∧ e.covRes = none) ∧
    (∀ err, e.synRes = some err →
      check_program_is_correct e = (some err, [Stage.syn])) ∧
    (∀ err, e.synRes = none → e.linkRes = some err →
      check_program_is_correct e = (some err, [Stage.syn, Stage.link])) ∧
    (∀ err, e.synRes = none → e.linkRes = none → e.execRes = some err →
      check_program_is_correct e = (some err, [Stage.syn, Stage.link, Stage.exec])) ∧
    (∀ err, e.synRes = none → e.linkRes = none → e.execRes = none →
      e.fuzzRes = some err →
      check_program_is_correct e =
        (some err, [Stage.syn, Stage.link, Stage.exec, Stage.fuzz])) ∧
    (∀ err, e.synRes = none → e.linkRes = none → e.execRes = none →
      e.fuzzRes = none → e.covRes = some err →
      check_program_is_correct e = (some err, pipelineStages)) ∧
    (e.synRes = none → e.linkRes = none → e.execRes = none →
      e.fuzzRes = none → e.covRes = none →
      check_program_is_correct e = (none, pipelineStages)) := by
  obtain ⟨s, l, x, f, c⟩ := e
  cases s <;> cases l <;> cases x <;> cases f <;> cases c <;>
    simp [check_program_is_correct, runStages, pipelineStages, stageOutcome]

/-- Witness for C1 at a concrete environment: the link stage fails, so the
verdict is its error and only syntax and link ran. -/
theorem c1_pipeline_first_failure_wins_witness :
    check_program_is_correct
        ⟨none, some (ProgramError.Link "ld"), none, none, none⟩ =
      (some (ProgramError.Link "ld"), [Stage.syn, Stage.link]) :=
  (c1_pipeline_first_failure_wins
    ⟨none, some (ProgramError.Link "ld"), none, none, none⟩).2.2.1
    (ProgramError.Link "ld") rfl rfl

theorem cleanupStep_ne (v : Option ProgramError) (d : String)
    (fs : String → Bool) (x : String) (h : x ≠ d) :
    cleanupStep v d fs x = fs x := by
  cases v with
  | none => rfl
  | some e => cases e <;> simp [cleanupStep, removeDirAll, h]

theorem cleanupStep_self (v : Option ProgramError) (d : String)
    (fs : String → Bool) (hfs : fs d = true) :
    cleanupStep v d fs d = keepVerdict v := by
  cases v with
  | none => simpa [cleanupStep, keepVerdict] using hfs
  | some e => cases e <;> simp [cleanupStep, removeDirAll, keepVerdict, hfs]

theorem cleanupLoop_not_mem :
    ∀ (pairs : List (Option ProgramError × String)) (fs : String → Bool)
      (d : String), d ∉ pairs.map Prod.snd → cleanupLoop pairs fs d = fs d := by
  intro pairs
  induction pairs with
  | nil => intro fs d _; rfl
  | cons pr rest ih =>
    intro fs d hd
    obtain ⟨v, d0⟩ := pr
    simp only [List.map_cons, List.mem_cons] at hd
    push_neg at hd
    rw [cleanupLoop, ih _ d hd.2, cleanupStep_ne v d0 fs d hd.1]

theorem cleanupLoop_getElem :
    ∀ (pairs : List (Option ProgramError × String)) (fs : String → Bool),
      (pairs.map Prod.snd).Nodup → (∀ pr ∈ pairs, fs pr.2 = true) →
      ∀ (i : Nat) (h : i < pairs.length),
        cleanupLoop pairs fs (pairs[i].2) = keepVerdict (pairs[i].1) := by
  intro pairs
  induction pairs with
  | nil => intro fs _ _ i h; exact absurd h (by simp)
  | cons pr rest ih =>
    intro fs hnd hex i h
    obtain ⟨v, d⟩ := pr
    simp only [List.map_cons, List.nodup_cons] at hnd
    cases i with
    | zero =>
      simp only [List.getElem_cons_zero]
      rw [cleanupLoop, cleanupLoop_not_mem rest _ d hnd.1]
      exact cleanupStep_self v d fs (hex (v, d) (by simp))
    | succ i =>
      simp only [List.getElem_cons_succ]
      rw [cleanupLoop]
      refine ih (cleanupStep v d fs) hnd.2 ?_ i (by simpa using h)
      intro pr' hpr'
      have hne : pr'.2 ≠ d := by
        intro hcontra
        exact absurd (hcontra ▸ List.mem_map_of_mem Prod.snd hpr') hnd.1
      rw [cleanupStep_ne v d fs pr'.2 hne]
      exact hex pr' (by simp [hpr'])

/-- C3: after `check_programs_are_correct` returns, a candidate's WorkDir
still exists iff its verdict is `None`, `Hang(_)` or `Fuzzer(_)`; for any
other verdict (`Syntax`, `Link`, `Execute`, `Coverage`) the WorkDir has
been removed recursively (`keepVerdict` is `false` exactly on those). -/
theorem c3_cleanup_policy {α : Type} (f : α → Option ProgramError)
    (progs : List (α × String)) (core : Nat) (fs0 : String → Bool)
    (hcore : 1 ≤ core) (hnd : (progs.map Prod.snd).Nodup)
    (hex : ∀ pr ∈ progs, fs0 pr.2 = true) :
    ∀ (i : Nat) (h : i < progs.length),
      (check_programs_are_correct f progs core fs0).2 (progs[i].2) =
        keepVerdict (f (progs[i].1)) := by
  intro i h
  have hres : concurrent_check f (progs.map Prod.fst) core =
      (progs.map Prod.fst).map f :=
    concurrent_check_eq_map f (progs.map Prod.fst) core hcore
  have hpairs : (concurrent_check f (progs.map Prod.fst) core).zip
        (progs.map Prod.snd) = progs.map (fun pr => (f pr.1, pr.2)) := by
    rw [hres, List.map_map, List.zip_map']
    simp [Function.comp]
  have hmain := cleanupLoop_getElem (progs.map (fun pr => (f pr.1, pr.2))) fs0
    (by simpa [List.map_map, Function.comp] using hnd)
    (by intro pr' hpr'
        obtain ⟨pr, hpr, rfl⟩ := List.mem_map.mp hpr'
        exact hex pr hpr)
    i (by simpa using h)
  simp only [List.getElem_map] at hmain
  show cleanupLoop ((concurrent_check f (progs.map Prod.fst) core).zip
      (progs.map Prod.snd)) fs0 (progs[i].2) = keepVerdict (f (progs[i].1))
  rw [hpairs]
  exact hmain

/-- Witness for C3: two programs with distinct WorkDirs, program 0 fails
with a syntax error; its WorkDir does not survive the cleanup. -/
theorem c3_cleanup_policy_witness :
    (1 ≤ 1 ∧
      (([((0 : Nat), "d0"), (1, "d1")]).map Prod.snd).Nodup ∧
      ∀ pr ∈ [((0 : Nat), "d0"), (1, "d1")], (fun _ => true) pr.2 = true) ∧
    (check_programs_are_correct exampleVerdictSynErr
        [((0 : Nat), "d0"), (1, "d1")] 1 (fun _ => true)).2
        (([((0 : Nat), "d0"), (1, "d1")])[0].2) =
      keepVerdict (exampleVerdictSynErr (([((0 : Nat), "d0"), (1, "d1")])[0].1)) :=
  ⟨⟨by decide, by decide, by intro pr _; rfl⟩,
    c3_cleanup_policy exampleVerdictSynErr [((0 : Nat), "d0"), (1, "d1")] 1
      (fun _ => true) (by decide) (by decide) (by intro pr _; rfl) 0 (by decide)⟩

theorem markOne_fst_iff :
    ∀ (fs g : List Nat), (markOne g fs).1 = true ↔ ∃ fe ∈ fs, fe ∉ g := by
  intro fs
  induction fs with
  | nil => intro g; simp [markOne]
  | cons fe rest ih =>
    intro g
    by_cases hmem : fe ∈ g
    · simp [markOne, insertFeature, hmem, ih g]
    · simp [markOne, insertFeature, hmem]

theorem markOne_snd_mem :
    ∀ (fs g : List Nat) (a : Nat),
      a ∈ (markOne g fs).2 ↔ a ∈ g ∨ a ∈ fs := by
  intro fs
  induction fs with
  | nil => intro g a; simp [markOne]
  | cons fe rest ih =>
    intro g a
    by_cases hmem : fe ∈ g
    · simp only [markOne, insertFeature, if_pos hmem]
      rw [ih g a]
      simp only [List.mem_cons]
      have himp : a = fe → a ∈ g := fun h => by rw [h]; exact hmem
      tauto
    · simp only [markOne, insertFeature, if_neg hmem]
      rw [ih (g ++ [fe]) a]
      simp only [List.mem_append, List.mem_singleton, List.mem_cons]
      tauto

theorem interestingSpec_congr :
    ∀ (pairs : List (String × List Nat)) (g1 g2 : List Nat),
      (∀ a, a ∈ g1 ↔ a ∈ g2) →
      interestingSpec g1 pairs = interestingSpec g2 pairs := by
  intro pairs
  induction pairs with
  | nil => intro g1 g2 _; rfl
  | cons pr rest ih =>
    intro g1 g2 hg
    obtain ⟨file, fs⟩ := pr
    have hext : ∀ a, a ∈ g1 ++ fs ↔ a ∈ g2 ++ fs := by
      intro a; simp [hg a]
    by_cases h1 : ∃ fe ∈ fs, fe ∉ g1
    · have h2 : ∃ fe ∈ fs, fe ∉ g2 := by
        obtain ⟨fe, hfe, hn⟩ := h1
        exact ⟨fe, hfe, fun hc => hn ((hg fe).mpr hc)⟩
      rw [interestingSpec, interestingSpec, if_pos h1, if_pos h2, ih _ _ hext]
    · have h2 : ¬ ∃ fe ∈ fs, fe ∉ g2 := by
        intro hc
        obtain ⟨fe, hfe, hn⟩ := hc
        exact h1 ⟨fe, hfe, fun hm => hn ((hg fe).mp hm)⟩
      rw [interestingSpec, interestingSpec, if_neg h1, if_neg h2, ih _ _ hext]

theorem evolveLoop_fst :
    ∀ (pairs : List (String × List Nat)) (g : List Nat),
      (evolveLoop pairs g).1 = interestingSpec g pairs := by
  intro pairs
  induction pairs with
  | nil => intro g; rfl
  | cons pr rest ih =>
    intro g
    obtain ⟨file, fs⟩ := pr
    have hmem : ∀ a, a ∈ (markOne g fs).2 ↔ a ∈ g ++ fs := by
      intro a; rw [markOne_snd_mem]; simp
    by_cases h : ∃ fe ∈ fs, fe ∉ g
    · have hb : (markOne g fs).1 = true := (markOne_fst_iff fs g).mpr h
      simp only [evolveLoop, interestingSpec, hb, if_true, if_pos h]
      rw [ih, interestingSpec_congr rest _ _ hmem]
      simp
    · have hb : (markOne g fs).1 = false := by
        cases hb' : (markOne g fs).1
        · rfl
        · exact absurd ((markOne_fst_iff fs g).mp hb') h
      simp only [evolveLoop, interestingSpec, hb, if_false, if_neg h]
      rw [ih, interestingSpec_congr rest _ _ hmem]
      simp

theorem evolveLoop_snd_mem :
    ∀ (pairs : List (String × List Nat)) (g : List Nat) (a : Nat),
      a ∈ (evolveLoop pairs g).2 ↔ a ∈ g ∨ ∃ pr ∈ pairs, a ∈ pr.2 := by
  intro pairs
  induction pairs with
  | nil => intro g a; simp [evolveLoop]
  | cons pr rest ih =>
    intro g a
    obtain ⟨file, fs⟩ := pr
    simp only [evolveLoop]
    rw [ih, markOne_snd_mem]
    simp only [List.mem_cons]
    constructor
    · rintro ((hg | hf) | ⟨pr', hpr', ha⟩)
      · exact Or.inl hg
      · exact Or.inr ⟨(file, fs), Or.inl rfl, hf⟩
      · exact Or.inr ⟨pr', Or.inr hpr', ha⟩
    · rintro (hg | ⟨pr', hpr' | hpr', ha⟩)
      · exact Or.inl (Or.inl hg)
      · exact Or.inl (Or.inr (by rw [hpr'] at ha; exact ha))
      · exact Or.inr ⟨pr', hpr', ha⟩

/-- C4: in `evolve_corpus`, a corpus file parsed from the merge control
file is marked interesting iff at least one of its features is newly added
to the GlobalFeature set by `insert_feature`, and exactly the interesting
files are copied into the SharedCorpus (appended to `shared0`). -/
theorem c4_interesting_iff_new_feature (gfOnDisk : Option (List Nat))
    (initGF : List Nat) (pairs : List (String × List Nat))
    (shared0 : List String) :
    (evolve_corpus gfOnDisk initGF pairs shared0).1 =
      shared0 ++ interestingSpec (gfOnDisk.getD initGF) pairs ∧
    (evolveLoop pairs (gfOnDisk.getD initGF)).1 =
      interestingSpec (gfOnDisk.getD initGF) pairs := by
  refine ⟨?_, evolveLoop_fst pairs _⟩
  simp [evolve_corpus, evolveLoop_fst]

theorem mem_runRounds_of_mem :
    ∀ (rounds : List (List (String × List Nat))) (g : List Nat) (a : Nat),
      a ∈ g → a ∈ runRounds rounds g := by
  intro rounds
  induction rounds with
  | nil => intro g a h; exact h
  | cons pairs rest ih =>
    intro g a h
    exact ih ((evolveLoop pairs g).2) a
      ((evolveLoop_snd_mem pairs g a).mpr (Or.inl h))

/-- C5: GlobalFeature membership is monotonic: the per-round update only
inserts features, so the set after round `r1` is contained in the set
after any later round `r2`, and every initially loaded feature survives. -/
theorem c5_global_feature_monotonic
    (rounds : List (List (String × List Nat))) (g0 : List Nat)
    (r1 r2 : Nat) (h : r1 ≤ r2) :
    (∀ a ∈ g0, a ∈ runRounds (rounds.take r1) g0) ∧
    (∀ a ∈ runRounds (rounds.take r1) g0,
      a ∈ runRounds (rounds.take r2) g0) := by
  constructor
  · intro a ha; exact mem_runRounds_of_mem _ g0 a ha
  · intro a ha
    have hsplit : rounds.take r2 =
        rounds.take r1 ++ (rounds.take r2).drop r1 := by
      conv_lhs => rw [← List.take_append_drop r1 (rounds.take r2)]
      rw [List.take_take, min_eq_left h]
    rw [hsplit, runRounds, List.foldl_append]
    exact mem_runRounds_of_mem ((rounds.take r2).drop r1)
      (runRounds (rounds.take r1) g0) a ha

/-- Witness for C5 at one concrete round list and `r1 = 0 ≤ 1 = r2`. -/
theorem c5_global_feature_monotonic_witness :
    0 ≤ 1 ∧
    ((∀ a ∈ [(7 : Nat)], a ∈ runRounds ([[("f", [3])]].take 0) [7]) ∧
      (∀ a ∈ runRounds ([[("f", [3])]].take 0) [7],
        a ∈ runRounds ([[("f", [3])]].take 1) [7])) :=
  ⟨by decide, c5_global_feature_monotonic [[("f", [3])]] [7] 0 1 (by decide)⟩

/-- C6: in every successful `evolve_corpus` run the side effects are
ordered: the interesting files are copied into the SharedCorpus strictly
before the updated GlobalFeature set is written, and the merge control
file is deleted strictly after that write. -/
theorem c6_evolve_side_effect_order (gfOnDisk : Option (List Nat))
    (initGF : List Nat) (pairs : List (String × List Nat))
    (shared0 : List String) :
    EvoEvent.CopyShared ∈ (evolve_corpus gfOnDisk initGF pairs shared0).2.2 ∧
    EvoEvent.WriteGF ∈ (evolve_corpus gfOnDisk initGF pairs shared0).2.2 ∧
    EvoEvent.RemoveControl ∈ (evolve_corpus gfOnDisk initGF pairs shared0).2.2 ∧
    evtIdx EvoEvent.CopyShared (evolve_corpus gfOnDisk initGF pairs shared0).2.2 <
      evtIdx EvoEvent.WriteGF (evolve_corpus gfOnDisk initGF pairs shared0).2.2 ∧
    evtIdx EvoEvent.WriteGF (evolve_corpus gfOnDisk initGF pairs shared0).2.2 <
      evtIdx EvoEvent.RemoveControl
        (evolve_corpus gfOnDisk initGF pairs shared0).2.2 := by
  cases gfOnDisk <;> simp [evolve_corpus, evoTrace, evtIdx]

/-- Counterexample to C7: at a failing coverage check
(`sanitize_by_fuzzer_coverage` reports an error) the source still calls
`evolve_corpus` and still removes `corpus/`, while the verdict is a
`Coverage` error — so the evolve/delete pair is not performed "exactly
when the candidate succeeds". -/
theorem c7_counterexample_evolve_on_error :
    CovEvent.EvolveCall ∈ (is_program_coverage_correct true "cov").2 ∧
    CovEvent.RemoveCorpusDir ∈ (is_program_coverage_correct true "cov").2 ∧
    (is_program_coverage_correct true "cov").1 ≠ none := by
  refine ⟨?_, ?_, ?_⟩ <;> simp [is_program_coverage_correct]

/-- C7 amended: the Coverage stage invokes `evolve_corpus` and deletes the
WorkDir's `corpus/` unconditionally — both run before the branch on the
coverage sanitization predicate, whose result alone decides between the
`none` verdict and a `Coverage` error. -/
theorem c7_amended_evolve_unconditional (hasErr : Bool) (covMsg : String) :
    CovEvent.EvolveCall ∈ (is_program_coverage_correct hasErr covMsg).2 ∧
    CovEvent.RemoveCorpusDir ∈ (is_program_coverage_correct hasErr covMsg).2 ∧
    ((is_program_coverage_correct hasErr covMsg).1 = none ↔ hasErr = false) := by
  cases hasErr <;> simp [is_program_coverage_correct]

/-- Counterexample to C8: the Fuzzer profile flag list `FUZZER_FLAGS` does
not contain `-fsanitize-trap=undefined` nor
`-fno-sanitize-recover=undefined`, so a profile that is bit-exact the
quoted six-flag list cannot also include those two flags. -/
theorem c8_counterexample_trap_flags_absent :
    "-fsanitize-trap=undefined" ∉ FUZZER_FLAGS ∧
    "-fno-sanitize-recover=undefined" ∉ FUZZER_FLAGS := by
  decide

/-- C8 amended: `FUZZER_FLAGS` is bit-exact the quoted six-flag list; the
trap and no-recover flags for undefined behaviour belong to
`SANITIZER_FLAGS`, a distinct flag set, and are absent from the Fuzzer
profile. -/
theorem c8_amended_fuzzer_flags :
    FUZZER_FLAGS = ["-fsanitize=fuzzer", "-O1", "-g",
      "-fsanitize=address,undefined", "-ftrivial-auto-var-init=zero",
      "-enable-trivial-auto-var-init-zero-knowing-it-will-be-removed-from-clang"] ∧
    "-fsanitize-trap=undefined" ∈ SANITIZER_FLAGS ∧
    "-fno-sanitize-recover=undefined" ∈ SANITIZER_FLAGS ∧
    "-fsanitize-trap=undefined" ∉ FUZZER_FLAGS ∧
    "-fno-sanitize-recover=undefined" ∉ FUZZER_FLAGS := by
  refine ⟨rfl, ?_, ?_, ?_, ?_⟩ <;> decide

/-- C10: `infill` on an `Infill` prompt builds the stop sequence from the
first 10 bytes of the suffix, and the byte slice is defined (no panic)
exactly when the suffix is at least 10 bytes long with a UTF-8 character
boundary at byte 10. -/
theorem c10_infill_slice_precondition (pre suf : List Nat) :
    (infill (PromptKind.Infill pre suf) = some (some (suf.take 10)) ↔
      10 ≤ suf.length ∧ isCharBoundary suf 10 = true) ∧
    (infill (PromptKind.Infill pre suf) = none ↔
      ¬ (10 ≤ suf.length ∧ isCharBoundary suf 10 = true)) := by
  by_cases h : 10 ≤ suf.length ∧ isCharBoundary suf 10 = true
  · simp [infill, byteSlicePre, h]
  · simp [infill, byteSlicePre, h]

theorem listFind_cons (pat : List Char) (c : Char) (rest : List Char) :
    listFind pat (c :: rest) =
      if isPre pat (c :: rest) then some 0
      else (listFind pat rest).map (· + 1) := rfl

theorem listRFind_cons (pat : List Char) (c : Char) (rest : List Char) :
    listRFind pat (c :: rest) =
      match listRFind pat rest with
      | some i => some (i + 1)
      | none => if isPre pat (c :: rest) then some 0 else none := rfl

theorem isPre_fence_no_bt (s : List Char) (h : bt ∉ s) :
    isPre fence s = false := by
  cases s with
  | nil => rfl
  | cons c rest =>
    have hc : ¬ bt = c := fun e => h (by rw [e]; exact List.mem_cons_self c rest)
    simp [fence, isPre, hc]

theorem listRFind_fence_no_bt (s : List Char) (h : bt ∉ s) :
    listRFind fence s = none := by
  induction s with
  | nil => rfl
  | cons c rest ih =>
    have h' : bt ∉ rest := fun hm => h (List.mem_cons_of_mem c hm)
    rw [listRFind_cons, ih h']
    simp [isPre_fence_no_bt (c :: rest) h]

theorem splitAtFirstFence_fst (t : List Char) (i : Nat)
    (h : listFind fence t = some i) :
    (splitAtFirstFence t).1 = t.take i := by
  unfold splitAtFirstFence
  rw [h]

theorem splitAtFirstFence_snd (t : List Char) (i : Nat)
    (h : listFind fence t = some i) :
    (splitAtFirstFence t).2 = t.drop i := by
  unfold splitAtFirstFence
  rw [h]

theorem wrapWithEvent_of_rfind (event rest2 : List Char) (j : Nat)
    (h : listRFind fence rest2 = some j) :
    wrapWithEvent event rest2 =
      ("/*").toList ++ event ++ ("*/\n").toList ++ rest2.take j := by
  unfold wrapWithEvent
  rw [h]

theorem listFind_fence_append (pre rest : List Char) (h : bt ∉ pre) :
    listFind fence (pre ++ (fence ++ rest)) = some pre.length := by
  induction pre with
  | nil => simp [fence, listFind, isPre]
  | cons c pre' ih =>
    have hc : ¬ bt = c := fun e => h (by rw [e]; exact List.mem_cons_self c pre')
    have h' : bt ∉ pre' := fun hm => h (List.mem_cons_of_mem c hm)
    have hnp : isPre fence (c :: (pre' ++ (fence ++ rest))) = false := by
      simp [fence, isPre, hc]
    rw [List.cons_append, listFind_cons, hnp]
    simp [ih h']

theorem listRFind_fence_append (mid post : List Char) (h : bt ∉ post) :
    listRFind fence (mid ++ (fence ++ post)) = some mid.length := by
  induction mid with
  | nil =>
    simp only [List.nil_append]
    show listRFind fence (bt :: (bt :: (bt :: post))) = some 0
    have h0 : listRFind fence post = none := listRFind_fence_no_bt post h
    have h1 : listRFind fence (bt :: post) = none := by
      rw [listRFind_cons, h0]
      have hp : isPre fence (bt :: post) = false := by
        cases post with
        | nil => rfl
        | cons d post' =>
          have hd : ¬ bt = d := fun e =>
            h (by rw [e]; exact List.mem_cons_self d post')
          simp [fence, isPre, hd]
      simp [hp]
    have h2 : listRFind fence (bt :: bt :: post) = none := by
      rw [listRFind_cons, h1]
      have hp : isPre fence (bt :: bt :: post) = false := by
        cases post with
        | nil => rfl
        | cons d post' =>
          have hd : ¬ bt = d := fun e =>
            h (by rw [e]; exact List.mem_cons_self d post')
          simp [fence, isPre, hd]
      simp [hp]
    rw [listRFind_cons, h2]
    have hp : isPre fence (bt :: bt :: bt :: post) = true := by
      simp [fence, isPre]
    simp [hp]
  | cons c mid' ih =>
    rw [List.cons_append, listRFind_cons, ih]
    simp

/-- Counterexample to C9: on `"```python\nfoo\n```"` — two backtick runs
but no recognized language tag after the first — the source keeps the
leading "```python" in the output, whereas the claim ("the text strictly
between the first backtick run and the last backtick run") would give
`"/**/\npython\nfoo\n"`. -/
theorem c9_counterexample_unknown_tag :
    strip_code_wrapper (("```python\nfoo\n```").toList) =
      ("/**/\n```python\nfoo\n").toList ∧
    ("/**/\n```python\nfoo\n").toList ≠ ("/**/\npython\nfoo\n").toList := by
  exact ⟨by decide, by decide⟩

/-- C9 amended: for inputs whose trimmed form is `pre ++ "```" ++ rest`
with no backtick in `pre`, the output is the block comment `/*pre*/`, a
newline, then the text up to the last backtick run of the tag-stripped
remainder: `stripTags` removes the first run together with a recognized
tag (cpp, CPP, C++, c++, c, C, or a newline) and otherwise leaves the run
in place, so the run itself survives into the output when no tag
matches. -/
theorem c9_amended_wrapper_output (input pre rest mid post : List Char)
    (htrim : trimList input = pre ++ (fence ++ rest))
    (hpre : bt ∉ pre)
    (hstrip : stripTags (fence ++ rest) = mid ++ (fence ++ post))
    (hpost : bt ∉ post) :
    strip_code_wrapper input =
      ("/*").toList ++ pre ++ ("*/\n").toList ++ mid := by
  have hfind := listFind_fence_append pre rest hpre
  have hrfind := listRFind_fence_append mid post hpost
  unfold strip_code_wrapper
  rw [htrim, splitAtFirstFence_fst _ _ hfind, splitAtFirstFence_snd _ _ hfind,
    List.take_left, List.drop_left, hstrip,
    wrapWithEvent_of_rfind _ _ _ hrfind, List.take_left]

/-- Witness for C9's amended theorem on a concrete tagged input. -/
theorem c9_amended_wrapper_output_witness :
    (trimList (("abc```cppHELLO```tail").toList) =
        ("abc").toList ++ (fence ++ ("cppHELLO```tail").toList) ∧
      bt ∉ ("abc").toList ∧
      stripTags (fence ++ ("cppHELLO```tail").toList) =
        ("HELLO").toList ++ (fence ++ ("tail").toList) ∧
      bt ∉ ("tail").toList) ∧
    strip_code_wrapper (("abc```cppHELLO```tail").toList) =
      ("/*").toList ++ ("abc").toList ++ ("*/\n").toList ++ ("HELLO").toList :=
  ⟨⟨by decide, by decide, by decide, by decide⟩,
    c9_amended_wrapper_output (("abc```cppHELLO```tail").toList)
      (("abc").toList) (("cppHELLO```tail").toList) (("HELLO").toList)
      (("tail").toList) (by decide) (by decide) (by decide) (by decide)⟩
